import Mathlib

/-!
Verification development for the LDA orchestration script `preprocessing/lda.py`.

The script is embedded shallowly: Python unicode strings become lists of
characters, the gensim `Dictionary` becomes a list of entries (token string,
integer id, document frequency), and each of the four command-line operations
becomes a pure Lean function that returns the observable effects the claims
talk about (batches fed to update calls, emitted events, printed actions).
-/

/-- A Python (unicode) string, modelled as its list of characters. -/
abbrev PyStr := List Char

/-- An article produced by the external corpus loader `load_articles`;
`content` is what `get_content_as_string()` returns. -/
structure Article where
  content : PyStr
deriving DecidableEq

/-- A token of a window, carrying its word string (`token.word`). -/
structure Token where
  word : PyStr
deriving DecidableEq

/-- A fixed-size word window produced by the external `load_windows`. -/
structure Window where
  tokens : List Token
deriving DecidableEq

/-- One vocabulary entry of a gensim `Dictionary`: the token string, its
integer id (`token2id`) and its document frequency (`dfs`). -/
structure DictEntry where
  token : PyStr
  id : Nat
  dfs : Nat
deriving DecidableEq

/-- A gensim `Dictionary`, as the list of its entries. -/
structure GDict where
  entries : List DictEntry
deriving DecidableEq

/-- Python `str.lower()`. -/
def pyLower (s : PyStr) : PyStr := s.map Char.toLower

/-- Python `str.strip()`: remove leading and trailing whitespace. -/
def pyStrip (s : PyStr) : PyStr :=
  ((s.dropWhile Char.isWhitespace).reverse.dropWhile Char.isWhitespace).reverse

/-- Python `str.split(" ")`: split on each single space, keeping empty
fields; an empty string yields the one-element list holding the empty
string. -/
def pySplitSpace : PyStr → List PyStr
  | [] => [[]]
  | c :: cs =>
    match pySplitSpace cs with
    | [] => [[c]]
    | t :: ts => if c = ' ' then [] :: t :: ts else (c :: t) :: ts

/-- Module constant `LDA_CHUNK_SIZE` of `lda.py`. -/
def LDA_CHUNK_SIZE : Nat := 10000

/-- Module constant `COUNT_EXAMPLES_FOR_DICTIONARY` of `lda.py`. -/
def COUNT_EXAMPLES_FOR_DICTIONARY : Nat := 100000

/-- Module constant `COUNT_EXAMPLES_FOR_LDA` of `lda.py`. -/
def COUNT_EXAMPLES_FOR_LDA : Nat := 1000000

/-- Module constant `LDA_COUNT_TOPICS` of `lda.py`. -/
def LDA_COUNT_TOPICS : Nat := 100

/-- Module constant `IGNORE_WORDS_BELOW_COUNT` of `lda.py`. -/
def IGNORE_WORDS_BELOW_COUNT : Nat := 4

/-- Tokenization of one article in `generate_dictionary`:
`article.get_content_as_string().lower().split(" ")`. -/
def articleTokens (a : Article) : List PyStr :=
  pySplitSpace (pyLower a.content)

/-- gensim `Dictionary.doc2bow`: the sparse bag-of-words vector of a token
list against a fixed vocabulary; tokens absent from the vocabulary are
dropped, present tokens map to (id, occurrence count). -/
def doc2bow (d : GDict) (doc : List PyStr) : List (Nat × Nat) :=
  (d.entries.filter (fun e => decide (e.token ∈ doc))).map
    (fun e => (e.id, doc.count e.token))

/-- Local variable `update_every_n_articles` of `generate_dictionary`. -/
def update_every_n_articles : Nat := 1000

/-- The flush after the article loop of `generate_dictionary`: the
accumulated batch is fed to `add_documents` only when it is non-empty. -/
def finalDictFlush (acc : List (List PyStr)) : List (List (List PyStr)) :=
  if 0 < acc.length then [acc] else []

/-- The article loop of `generate_dictionary` (lines 71-84), returning the
successive batches fed to `dictionary.add_documents`, final partial flush
included.  Each iteration appends the tokenized article to the accumulator,
flushes when the accumulator reaches `update_every_n_articles`, and breaks
when the running index `i` exceeds the cap `C`. -/
def dictLoop (C : Nat) : List Article → Nat → List (List PyStr) → List (List (List PyStr))
  | [], _, acc => finalDictFlush acc
  | a :: rest, i, acc =>
    if update_every_n_articles ≤ (acc ++ [articleTokens a]).length then
      if C < i then [acc ++ [articleTokens a]]
      else (acc ++ [articleTokens a]) :: dictLoop C rest (i + 1) []
    else
      if C < i then finalDictFlush (acc ++ [articleTokens a])
      else dictLoop C rest (i + 1) (acc ++ [articleTokens a])

/-- The batches of tokenized articles that `generate_dictionary`'s loop with
cap `C` feeds to `add_documents`, starting from index 0 and an empty
accumulator. -/
def dictBatches (C : Nat) (arts : List Article) : List (List (List PyStr)) :=
  dictLoop C arts 0 []

/-- The batches `generate_dictionary` itself feeds to `add_documents`, with
the configured cap `COUNT_EXAMPLES_FOR_DICTIONARY`. -/
def generate_dictionary_batches (arts : List Article) : List (List (List PyStr)) :=
  dictBatches COUNT_EXAMPLES_FOR_DICTIONARY arts

/-- Line 90 of `lda.py`: the ids of all tokens whose document frequency is
below the threshold `T`. -/
def rare_ids (d : GDict) (T : Nat) : List Nat :=
  (d.entries.filter (fun e => decide (e.dfs < T))).map (fun e => e.id)

/-- gensim `Dictionary.filter_tokens(bad_ids)`: remove every entry whose id
is listed. -/
def filter_tokens (d : GDict) (bad : List Nat) : GDict :=
  ⟨d.entries.filter (fun e => decide (e.id ∉ bad))⟩

/-- gensim `Dictionary.compactify`: reassign each entry the rank of its old
id among all current ids (the order-preserving compaction onto 0,1,2,...). -/
def compactify (d : GDict) : GDict :=
  ⟨d.entries.map (fun e =>
    { e with id := (d.entries.map (fun e₂ => e₂.id)).countP (fun j => decide (j < e.id)) })⟩

/-- Lines 90-92 of `generate_dictionary`: drop the rare ids, then compact. -/
def dictionaryFilterPhase (d : GDict) (T : Nat) : GDict :=
  compactify (filter_tokens d (rare_ids d T))

/-- Local variable `update_every_n_windows` of `train_lda`. -/
def update_every_n_windows : Nat := 25000

/-- Lines 128-129 of `train_lda`: lower-case the window's tokens and convert
them to a bag-of-words vector against the loaded dictionary. -/
def windowBow (d : GDict) (w : Window) : List (Nat × Nat) :=
  doc2bow d (w.tokens.map (fun t => pyLower t.word))

/-- The window loop of `train_lda` (lines 127-144), returning the successive
batches fed to `lda_model.update`.  Each iteration appends the window's
bag-of-words vector, flushes when the accumulator reaches `F`, and breaks
when the running index `i` reaches the cap; the commented-out final partial
flush is absent, so a non-empty accumulator left at the end is discarded. -/
def ldaLoop (d : GDict) (F cap : Nat) :
    List Window → Nat → List (List (Nat × Nat)) → List (List (List (Nat × Nat)))
  | [], _, _ => []
  | w :: rest, i, acc =>
    if F ≤ (acc ++ [windowBow d w]).length then
      if cap ≤ i then [acc ++ [windowBow d w]]
      else (acc ++ [windowBow d w]) :: ldaLoop d F cap rest (i + 1) []
    else
      if cap ≤ i then []
      else ldaLoop d F cap rest (i + 1) (acc ++ [windowBow d w])

/-- The batches `train_lda` feeds to `lda_model.update` for a given window
stream, with the flush threshold 25000 and cap `COUNT_EXAMPLES_FOR_LDA` of
the source. -/
def train_lda_updates (d : GDict) (ws : List Window) : List (List (List (Nat × Nat))) :=
  ldaLoop d update_every_n_windows COUNT_EXAMPLES_FOR_LDA ws 0 []

/-- A Python dict assignment `m[k] = v` on an id-to-word dict kept as an
insertion-ordered association list: overwrite in place when the key exists,
otherwise append. -/
def pyDictInsert (m : List (Nat × PyStr)) (k : Nat) (v : PyStr) : List (Nat × PyStr) :=
  if m.any (fun p => p.1 == k) then
    m.map (fun p => if p.1 == k then (k, v) else p)
  else m ++ [(k, v)]

/-- Lines 114-116 of `train_lda`: the id-to-word dict built by iterating the
vocabulary's `token2id` mapping and assigning `id2word[token2id[word]] = word`. -/
def id2word (d : GDict) : List (Nat × PyStr) :=
  d.entries.foldl (fun m e => pyDictInsert m e.id e.token) []

/-- An observable step of `test_lda` after validation: loading the
dictionary, loading the model, and querying the model with a bag of words
(the final `print(lda_model[bow])`). -/
inductive Event where
  | loadDictionary
  | loadModel
  | queryModel (bow : List (Nat × Nat))
deriving DecidableEq

/-- What a successful `test_lda` run produces: how many times the
length-mismatch informational message was printed, and the ordered events
performed after validation. -/
structure TestOutput where
  warnCount : Nat
  events : List Event
deriving DecidableEq

/-- The error message of line 176 of `lda.py`. -/
def missingSentenceMessage : String := "Missing or empty 'sentence' argument."

/-- `test_lda(sentence)` (lines 166-190).  The configured window size
`LDA_WINDOW_SIZE` lives in the external `config` module, so it is passed
here as the parameter `windowSize`; the dictionary and model loaded from
disk are passed as `d`.  Raising is modelled as `Except.error`; the
`decode("utf-8")` step is the identity on the character list. -/
def test_lda (windowSize : Nat) (d : GDict) (sentence : Option PyStr) :
    Except String TestOutput :=
  match sentence with
  | none => Except.error missingSentenceMessage
  | some s =>
    if s.length < 1 then Except.error missingSentenceMessage
    else
      let tokens := pySplitSpace (pyStrip (pyLower s))
      Except.ok
        { warnCount := if tokens.length ≠ windowSize then 1 else 0
          events := [Event.loadDictionary, Event.loadModel,
                     Event.queryModel (doc2bow d tokens)] }

/-- An observable action of the script entry point `main`: running one of the four operations, or
printing the usage hint to standard output. -/
inductive CliAction where
  | runDict
  | runTrain
  | runTopics
  | runTest
  | printUsage (message : String)
deriving DecidableEq

/-- The usage hint printed by line 56 of `lda.py`. -/
def usageHint : String := "No option chosen, choose --dict or --train or --topics or --test."

/-- The parsed command-line arguments: the four boolean flags and the
optional sentence. -/
structure Args where
  dict : Bool
  train : Bool
  topics : Bool
  test : Bool
  sentence : Option PyStr
deriving DecidableEq

/-- `main()` (lines 28-56): run the selected operations in order, then print
the usage hint when no flag was chosen.  Of the four operations only
`test_lda` validates its argument and can raise; an uncaught raise aborts
the run (`Except.error`, the non-zero process exit), while `Except.ok`
models the normal zero exit. -/
def main_dispatch (windowSize : Nat) (d : GDict) (a : Args) : Except String (List CliAction) :=
  let acts := (if a.dict then [CliAction.runDict] else []) ++
              (if a.train then [CliAction.runTrain] else []) ++
              (if a.topics then [CliAction.runTopics] else [])
  let tail := if !a.dict && !a.train && !a.topics && !a.test then
                [CliAction.printUsage usageHint]
              else []
  if a.test then
    match test_lda windowSize d a.sentence with
    | Except.error e => Except.error e
    | Except.ok _ => Except.ok (acts ++ [CliAction.runTest] ++ tail)
  else Except.ok (acts ++ tail)

/-- Each iteration of the window loop grows the accumulator by one, so the
flush fires exactly when the accumulator holds `F` vectors; counting the
flushes gives the floor of (carried + processed) / F, where the loop
starting at index `i` processes `min remaining (cap + 1 - i)` windows. -/
theorem ldaLoop_length (d : GDict) (F cap : Nat) (ws : List Window) :
    ∀ (i : Nat) (acc : List (List (Nat × Nat))), acc.length < F → i ≤ cap →
    (ldaLoop d F cap ws i acc).length = (acc.length + min ws.length (cap + 1 - i)) / F := by
  induction ws with
  | nil =>
    intro i acc ha _
    simp [ldaLoop, Nat.div_eq_of_lt ha]
  | cons w rest ih =>
    intro i acc ha hi
    have hF0 : 0 < F := Nat.lt_of_le_of_lt (Nat.zero_le _) ha
    simp only [ldaLoop, List.length_append, List.length_singleton, List.length_nil,
      Nat.zero_add, List.length_cons]
    by_cases hF : F ≤ acc.length + 1
    · have hFeq : acc.length + 1 = F := Nat.le_antisymm ha hF
      rw [if_pos hF]
      by_cases hcap : cap ≤ i
      · rw [if_pos hcap]
        have hic : i = cap := Nat.le_antisymm hi hcap
        have hmin : min (rest.length + 1) (cap + 1 - i) = 1 := by omega
        rw [hmin, List.length_singleton, hFeq, Nat.div_self hF0]
      · rw [if_neg hcap, List.length_cons,
          ih (i + 1) [] (by simpa using hF0) (by omega)]
        have hnum : acc.length + min (rest.length + 1) (cap + 1 - i) =
            min rest.length (cap + 1 - (i + 1)) + F := by omega
        rw [hnum, Nat.add_div_right _ hF0, List.length_nil, Nat.zero_add]
    · rw [if_neg hF]
      have ha' : acc.length + 1 < F := Nat.lt_of_not_le hF
      by_cases hcap : cap ≤ i
      · rw [if_pos hcap]
        have hic : i = cap := Nat.le_antisymm hi hcap
        have hmin : min (rest.length + 1) (cap + 1 - i) = 1 := by omega
        rw [hmin, List.length_nil, Nat.div_eq_of_lt ha']
      · rw [if_neg hcap,
          ih (i + 1) (acc ++ [windowBow d w]) (by simpa using ha') (by omega)]
        have hnum : acc.length + min (rest.length + 1) (cap + 1 - i) =
            acc.length + 1 + min rest.length (cap + 1 - (i + 1)) := by omega
        rw [List.length_append, List.length_singleton, hnum]

/-- Every batch the window loop emits has exactly `F` vectors: the in-loop
flush fires at exactly `F`, and the loop never flushes its final partial
accumulator. -/
theorem ldaLoop_batch_sizes (d : GDict) (F cap : Nat) (ws : List Window) :
    ∀ (i : Nat) (acc : List (List (Nat × Nat))), acc.length < F →
    ∀ b ∈ ldaLoop d F cap ws i acc, b.length = F := by
  induction ws with
  | nil => intro i acc _ b hb; simp [ldaLoop] at hb
  | cons w rest ih =>
    intro i acc ha b hb
    have hF0 : 0 < F := Nat.lt_of_le_of_lt (Nat.zero_le _) ha
    simp only [ldaLoop, List.length_append, List.length_singleton, List.length_nil,
      Nat.zero_add] at hb
    by_cases hF : F ≤ acc.length + 1
    · have hFeq : (acc ++ [windowBow d w]).length = F := by
        simpa using Nat.le_antisymm ha hF
      rw [if_pos hF] at hb
      by_cases hcap : cap ≤ i
      · rw [if_pos hcap] at hb
        simp only [List.mem_singleton] at hb
        rw [hb, hFeq]
      · rw [if_neg hcap] at hb
        rcases List.mem_cons.mp hb with hb | hb
        · rw [hb, hFeq]
        · exact ih (i + 1) [] (by simpa using hF0) b hb
    · rw [if_neg hF] at hb
      have ha' : acc.length + 1 < F := Nat.lt_of_not_le hF
      by_cases hcap : cap ≤ i
      · rw [if_pos hcap] at hb
        simp at hb
      · rw [if_neg hcap] at hb
        exact ih (i + 1) (acc ++ [windowBow d w]) (by simpa using ha') b hb

/-- Claim C1 (amended): for an input stream of W windows, the Model Trainer
issues exactly floor(min(W, COUNT_EXAMPLES_FOR_LDA + 1) / 25000) calls to
the model's update operation before saving: the flush is the floor, not the
ceiling, because no final partial batch is flushed, and the cap admits one
extra window because the break check follows the append. -/
theorem train_lda_update_call_count (d : GDict) (ws : List Window) :
    (train_lda_updates d ws).length =
      min ws.length (COUNT_EXAMPLES_FOR_LDA + 1) / update_every_n_windows := by
  have h := ldaLoop_length d update_every_n_windows COUNT_EXAMPLES_FOR_LDA ws 0 []
    (by decide) (Nat.zero_le _)
  simpa [train_lda_updates] using h

/-- Claim C1 counterexample: on a stream of a single window the trainer
issues zero update calls, while the claimed ceiling of W/F is one. -/
theorem train_lda_ceil_count_cex :
    ¬ ((train_lda_updates ⟨[]⟩ [⟨[]⟩]).length =
       (([⟨[]⟩] : List Window).length + update_every_n_windows - 1) / update_every_n_windows) := by
  decide

/-- Claim C4: every call to the model's update operation carries a batch of
exactly `update_every_n_windows` (25000) bag-of-words vectors; the loop
never issues a smaller, partial final batch. -/
theorem train_lda_batches_full (d : GDict) (ws : List Window) :
    (train_lda_updates d ws).Forall (fun b => b.length = update_every_n_windows) := by
  rw [List.forall_iff_forall_mem]
  exact ldaLoop_batch_sizes d update_every_n_windows COUNT_EXAMPLES_FOR_LDA ws 0 []
    (by decide)

/-- Concatenating all batches the article loop feeds to `add_documents`
(final partial flush included) recovers exactly the tokenized prefix of the
stream that the loop visited: starting at index `i ≤ C + 1` it visits
`C + 2 - i` further articles at most. -/
theorem dictLoop_join (C : Nat) (arts : List Article) :
    ∀ (i : Nat) (acc : List (List PyStr)), i ≤ C + 1 →
    (dictLoop C arts i acc).flatten = acc ++ (arts.take (C + 2 - i)).map articleTokens := by
  induction arts with
  | nil =>
    intro i acc _
    by_cases h : 0 < acc.length
    · simp [dictLoop, finalDictFlush, h]
    · simp only [List.length_pos, ne_eq, not_not] at h
      simp [dictLoop, finalDictFlush, h]
  | cons a rest ih =>
    intro i acc hi
    have htake : C + 2 - i = (C + 2 - (i + 1)) + 1 := by omega
    rw [htake]
    simp only [dictLoop, List.take_succ_cons, List.map_cons]
    by_cases hF : update_every_n_articles ≤ (acc ++ [articleTokens a]).length
    · rw [if_pos hF]
      by_cases hcap : C < i
      · have hic : i = C + 1 := by omega
        have h0 : C + 2 - (i + 1) = 0 := by omega
        rw [if_pos hcap]
        simp [h0]
      · rw [if_neg hcap, List.flatten_cons, ih (i + 1) [] (by omega)]
        simp
    · rw [if_neg hF]
      by_cases hcap : C < i
      · have hic : i = C + 1 := by omega
        have h0 : C + 2 - (i + 1) = 0 := by omega
        rw [if_pos hcap]
        have hpos : 0 < (acc ++ [articleTokens a]).length := by simp
        simp [finalDictFlush, hpos, h0]
      · rw [if_neg hcap, ih (i + 1) (acc ++ [articleTokens a]) (by omega)]
        simp

/-- Claim C2 (amended): for a stream of W articles and cap C the Dictionary
Builder tokenizes and accumulates exactly min(C + 2, W) articles — hence at
most C + 2, not C + 1: the article at index C + 1 is still tokenized and
appended before the `i > C` break check fires. -/
theorem dictionary_processed_article_count (C : Nat) (arts : List Article) :
    ((dictBatches C arts).flatten).length = min (C + 2) arts.length := by
  rw [dictBatches, dictLoop_join C arts 0 [] (Nat.zero_le _)]
  simp

/-- Claim C2 counterexample: with cap C = 2, a stream of four articles is
tokenized and accumulated in full — four articles, exceeding C + 1 = 3. -/
theorem dictionary_cap_excess_cex :
    ¬ (((dictBatches 2 [⟨['x']⟩, ⟨['x']⟩, ⟨['x']⟩, ⟨['x']⟩]).flatten).length ≤ 2 + 1) := by
  decide

/-- Claim C9: the Dictionary Builder flushes its final partial batch — the
concatenation of all batches fed to `add_documents` is exactly the tokenized
form of every article the loop visited, so each tokenized article
contributes its document frequencies to the vocabulary before filtering. -/
theorem dictionary_final_partial_flush (arts : List Article) :
    (generate_dictionary_batches arts).flatten =
      (arts.take (COUNT_EXAMPLES_FOR_DICTIONARY + 2)).map articleTokens := by
  rw [generate_dictionary_batches, dictBatches, dictLoop_join _ _ 0 [] (Nat.zero_le _)]
  simp

/-- A small concrete vocabulary used to instantiate the theorems below. -/
def sampleDict : GDict :=
  ⟨[⟨['a'], 0, 5⟩, ⟨['b'], 1, 2⟩, ⟨['c'], 2, 7⟩]⟩

/-- Claim C5: the Sentence Tester raises exactly on an absent (None) or
length-zero sentence, and the raise precedes every artifact load, so the
error result carries no load, bag-of-words or model-query event. -/
theorem test_lda_error_iff (W : Nat) (d : GDict) (s : Option PyStr) :
    test_lda W d s = Except.error missingSentenceMessage ↔ (s = none ∨ s = some []) := by
  cases s with
  | none => simp [test_lda]
  | some str =>
    cases str with
    | nil => simp [test_lda]
    | cons c cs => simp [test_lda]

/-- Claim C6: for any non-empty sentence the Sentence Tester emits the
length-mismatch message exactly once when the token count differs from the
configured window size and not at all otherwise, and in both cases it still
loads the dictionary and the model and queries the model with the
sentence's bag of words. -/
theorem test_lda_warn_iff_mismatch (W : Nat) (d : GDict) (str : PyStr) (h : str ≠ []) :
    test_lda W d (some str) =
      Except.ok
        { warnCount := if (pySplitSpace (pyStrip (pyLower str))).length ≠ W then 1 else 0
          events := [Event.loadDictionary, Event.loadModel,
                     Event.queryModel (doc2bow d (pySplitSpace (pyStrip (pyLower str))))] } := by
  have hlen : ¬ (str.length < 1) := by
    cases str with
    | nil => exact absurd rfl h
    | cons c cs => simp
  simp [test_lda, hlen]

/-- Witness for claim C6 at the concrete sentence "a b" with window size 2. -/
theorem test_lda_warn_iff_mismatch_witness :
    (['a', ' ', 'b'] : PyStr) ≠ [] ∧
    test_lda 2 sampleDict (some ['a', ' ', 'b']) =
      Except.ok
        { warnCount := if (pySplitSpace (pyStrip (pyLower ['a', ' ', 'b']))).length ≠ 2 then 1 else 0
          events := [Event.loadDictionary, Event.loadModel,
                     Event.queryModel (doc2bow sampleDict (pySplitSpace (pyStrip (pyLower ['a', ' ', 'b']))))] } :=
  ⟨by decide, test_lda_warn_iff_mismatch 2 sampleDict ['a', ' ', 'b'] (by decide)⟩

/-- Claim C10: a sentence consisting of one space passes the emptiness
check (its raw length is 1), strips and splits to the single empty token,
and — when the vocabulary holds no empty token — the model is queried with
the empty bag-of-words vector instead of raising. -/
theorem test_lda_whitespace_sentence (W : Nat) (d : GDict)
    (h : ∀ e ∈ d.entries, e.token ≠ []) :
    test_lda W d (some [' ']) =
      Except.ok { warnCount := if 1 ≠ W then 1 else 0
                  events := [Event.loadDictionary, Event.loadModel,
                             Event.queryModel []] } := by
  have htok : pySplitSpace (pyStrip (pyLower [' '])) = [[]] := by decide
  have hbow : doc2bow d [([] : PyStr)] = [] := by
    rw [doc2bow]
    have hfil : d.entries.filter (fun e => decide (e.token ∈ [([] : PyStr)])) = [] := by
      refine List.filter_eq_nil_iff.mpr fun e he => ?_
      simpa using h e he
    rw [hfil]
    rfl
  have hlen : ¬ (([' '] : PyStr).length < 1) := by decide
  simp [test_lda, hlen, htok, hbow]

/-- Witness for claim C10 with window size 3 and the sample vocabulary. -/
theorem test_lda_whitespace_sentence_witness :
    (∀ e ∈ sampleDict.entries, e.token ≠ []) ∧
    test_lda 3 sampleDict (some [' ']) =
      Except.ok { warnCount := if 1 ≠ 3 then 1 else 0
                  events := [Event.loadDictionary, Event.loadModel,
                             Event.queryModel []] } :=
  ⟨by decide, test_lda_whitespace_sentence 3 sampleDict (by decide)⟩

/-- Claim C8: with none of the four operation flags set, `main` prints the
usage hint to standard output, runs none of the four operations, and
finishes normally (an ok result, the zero process exit). -/
theorem main_no_flags_usage (W : Nat) (d : GDict) (s : Option PyStr) :
    main_dispatch W d ⟨false, false, false, false, s⟩ =
      Except.ok [CliAction.printUsage usageHint] := rfl

/-- Inserting a key absent from the id-to-word dict appends the pair. -/
theorem pyDictInsert_not_mem (m : List (Nat × PyStr)) (k : Nat) (v : PyStr)
    (h : ∀ p ∈ m, p.1 ≠ k) : pyDictInsert m k v = m ++ [(k, v)] := by
  have hany : m.any (fun p => p.1 == k) = false := by
    rw [List.any_eq_false]
    intro p hp
    simpa using h p hp
  simp [pyDictInsert, hany]

/-- When the iterated ids are distinct and disjoint from the keys already
inserted, the id-to-word fold just appends one pair per entry. -/
theorem id2word_foldl (l : List DictEntry) :
    ∀ (m : List (Nat × PyStr)), (l.map (fun e => e.id)).Nodup →
    (∀ e ∈ l, ∀ p ∈ m, p.1 ≠ e.id) →
    l.foldl (fun m e => pyDictInsert m e.id e.token) m =
      m ++ l.map (fun e => (e.id, e.token)) := by
  induction l with
  | nil => intro m _ _; simp
  | cons a l ih =>
    intro m hnd hdis
    rw [List.map_cons, List.nodup_cons] at hnd
    rw [List.foldl_cons,
      pyDictInsert_not_mem m a.id a.token (fun p hp => hdis a (List.mem_cons_self a l) p hp),
      ih (m ++ [(a.id, a.token)]) hnd.2
        (by
          intro e he p hp
          rcases List.mem_append.mp hp with hp | hp
          · exact hdis e (List.mem_cons_of_mem a he) p hp
          · rcases List.mem_singleton.mp hp with rfl
            intro hcontra
            apply hnd.1
            have hae : a.id = e.id := hcontra
            rw [hae]
            exact List.mem_map_of_mem (fun e => e.id) he)]
    simp

/-- With distinct ids, the id-to-word dict is literally the list of
(id, token) pairs of the vocabulary entries in iteration order. -/
theorem id2word_eq (d : GDict) (h : (d.entries.map (fun e => e.id)).Nodup) :
    id2word d = d.entries.map (fun e => (e.id, e.token)) := by
  rw [id2word, id2word_foldl d.entries [] h (by simp)]
  simp

/-- Looking an entry's id up in the (id, token) pair list of a vocabulary
with distinct ids returns that entry's token. -/
theorem lookup_map_entries (l : List DictEntry) (h : (l.map (fun e => e.id)).Nodup) :
    ∀ e ∈ l, (l.map (fun e => (e.id, e.token))).lookup e.id = some e.token := by
  induction l with
  | nil => simp
  | cons a l ih =>
    intro e he
    rcases List.mem_cons.mp he with rfl | he'
    · simp [List.lookup]
    · rw [List.map_cons, List.nodup_cons] at h
      have hne : (e.id == a.id) = false := by
        refine beq_eq_false_iff_ne.mpr fun hcontra => ?_
        apply h.1
        rw [← hcontra]
        exact List.mem_map_of_mem (fun e => e.id) he'
      simp only [List.map_cons, List.lookup, hne]
      exact ih h.2 e he'

/-- Claim C7: with distinct vocabulary ids (a gensim invariant), the
id-to-word mapping built by `train_lda` inverts `token2id` — each entry's
id looks up to its token — and every pair of the mapping arises from some
vocabulary entry. -/
theorem id2word_inverts_token2id (d : GDict)
    (h : (d.entries.map (fun e => e.id)).Nodup) :
    (∀ e ∈ d.entries, (id2word d).lookup e.id = some e.token) ∧
    (∀ p ∈ id2word d, ∃ e ∈ d.entries, e.id = p.1 ∧ e.token = p.2) := by
  have heq := id2word_eq d h
  constructor
  · intro e he
    rw [heq]
    exact lookup_map_entries d.entries h e he
  · intro p hp
    rw [heq] at hp
    rcases List.mem_map.mp hp with ⟨e, he, rfl⟩
    exact ⟨e, he, rfl, rfl⟩

/-- Witness for claim C7 on the sample vocabulary. -/
theorem id2word_inverts_token2id_witness :
    (∀ e ∈ sampleDict.entries, (id2word sampleDict).lookup e.id = some e.token) ∧
    (∀ p ∈ id2word sampleDict, ∃ e ∈ sampleDict.entries, e.id = p.1 ∧ e.token = p.2) :=
  id2word_inverts_token2id sampleDict (by decide)

/-- Counting the elements below `x` is strictly monotone in `x` over a list
containing `x`. -/
theorem countP_lt_countP_of_mem_lt (l : List Nat) (x y : Nat) (hx : x ∈ l) (hxy : x < y) :
    l.countP (fun j => decide (j < x)) < l.countP (fun j => decide (j < y)) := by
  induction l with
  | nil => cases hx
  | cons a l ih =>
    rw [List.countP_cons, List.countP_cons]
    have hmono : l.countP (fun j => decide (j < x)) ≤ l.countP (fun j => decide (j < y)) := by
      refine List.countP_mono_left fun j _ hjx => ?_
      simp only [decide_eq_true_eq] at hjx ⊢
      omega
    rcases List.mem_cons.mp hx with rfl | hx'
    · have h1 : (decide (x < x) : Bool) = false := by simp
      have h2 : (decide (x < y) : Bool) = true := by simpa using hxy
      rw [h1, h2]
      simpa using Nat.lt_succ_of_le hmono
    · have hstep := ih hx'
      have hif : (if (decide (a < x) : Bool) = true then 1 else 0) ≤
          (if (decide (a < y) : Bool) = true then 1 else 0) := by
        by_cases hax : a < x
        · have hay : a < y := Nat.lt_trans hax hxy
          simp [hax, hay]
        · simp [hax]
      omega

/-- Counting the elements below a member of the list stays strictly below
the list's length, because the member itself is never counted. -/
theorem countP_lt_length_of_mem (l : List Nat) (x : Nat) (hx : x ∈ l) :
    l.countP (fun j => decide (j < x)) < l.length := by
  induction l with
  | nil => cases hx
  | cons a l ih =>
    rw [List.countP_cons, List.length_cons]
    rcases List.mem_cons.mp hx with rfl | hx'
    · have h1 : (decide (x < x) : Bool) = false := by simp
      rw [h1]
      simpa using Nat.lt_succ_of_le (List.countP_le_length _)
    · have hstep := ih hx'
      have hif : (if (decide (a < x) : Bool) = true then 1 else 0) ≤ 1 := by
        by_cases hax : a < x <;> simp [hax]
      omega

/-- Replacing each member of a duplicate-free list of ids by its rank (the
count of smaller ids) yields a permutation of 0, ..., n-1. -/
theorem compact_ranks_perm (ids : List Nat) (h : ids.Nodup) :
    (ids.map (fun x => ids.countP (fun j => decide (j < x)))).Perm
      (List.range ids.length) := by
  have hsub : (ids.map (fun x => ids.countP (fun j => decide (j < x)))) ⊆
      List.range ids.length := by
    intro r hr
    rcases List.mem_map.mp hr with ⟨x, hx, rfl⟩
    exact List.mem_range.mpr (countP_lt_length_of_mem ids x hx)
  have hnd : (ids.map (fun x => ids.countP (fun j => decide (j < x)))).Nodup := by
    refine List.Nodup.map_on ?_ h
    intro x hx y hy hxy
    rcases Nat.lt_trichotomy x y with hlt | heq | hgt
    · exact absurd hxy (Nat.ne_of_lt (countP_lt_countP_of_mem_lt ids x y hx hlt))
    · exact heq
    · exact absurd hxy.symm (Nat.ne_of_lt (countP_lt_countP_of_mem_lt ids y x hy hgt))
  refine (List.subperm_of_subset hnd hsub).perm_of_length_le ?_
  simp

/-- Claim C3: after the rare-token filter with threshold T and compaction,
no surviving entry has document frequency below T, and — given the gensim
invariant that ids are distinct — the surviving ids are a permutation of
the contiguous range 0, ..., n-1. -/
theorem dictionary_filter_compact_spec (d : GDict) (T : Nat)
    (h : (d.entries.map (fun e => e.id)).Nodup) :
    (∀ e ∈ (dictionaryFilterPhase d T).entries, T ≤ e.dfs) ∧
    ((dictionaryFilterPhase d T).entries.map (fun e => e.id)).Perm
      (List.range (dictionaryFilterPhase d T).entries.length) := by
  constructor
  · intro e he
    rw [dictionaryFilterPhase, compactify] at he
    simp only [List.mem_map] at he
    rcases he with ⟨e₁, he₁, rfl⟩
    show T ≤ e₁.dfs
    have he₁d := List.mem_filter.mp he₁
    by_contra hTd
    have hdfs : e₁.dfs < T := by omega
    have hrare : e₁.id ∈ rare_ids d T := by
      rw [rare_ids]
      exact List.mem_map_of_mem _ (List.mem_filter.mpr ⟨he₁d.1, by simpa using hdfs⟩)
    have hkeep := he₁d.2
    simp only [decide_eq_true_eq] at hkeep
    exact hkeep hrare
  · have hnodup : ((filter_tokens d (rare_ids d T)).entries.map (fun e => e.id)).Nodup := by
      have hsub : List.Sublist ((filter_tokens d (rare_ids d T)).entries.map (fun e => e.id))
          (d.entries.map (fun e => e.id)) := (List.filter_sublist _).map _
      exact hsub.nodup h
    have hids : (dictionaryFilterPhase d T).entries.map (fun e => e.id) =
        ((filter_tokens d (rare_ids d T)).entries.map (fun e => e.id)).map
          (fun x => ((filter_tokens d (rare_ids d T)).entries.map (fun e => e.id)).countP
            (fun j => decide (j < x))) := by
      rw [dictionaryFilterPhase, compactify]
      simp [List.map_map]
    have hlen : (dictionaryFilterPhase d T).entries.length =
        ((filter_tokens d (rare_ids d T)).entries.map (fun e => e.id)).length := by
      rw [dictionaryFilterPhase, compactify]
      simp
    rw [hids, hlen]
    exact compact_ranks_perm _ hnodup

/-- Witness for claim C3 at the threshold 4 of the source on the sample
vocabulary, whose middle entry has document frequency 2 and is dropped. -/
theorem dictionary_filter_compact_spec_witness :
    (∀ e ∈ (dictionaryFilterPhase sampleDict IGNORE_WORDS_BELOW_COUNT).entries,
      IGNORE_WORDS_BELOW_COUNT ≤ e.dfs) ∧
    ((dictionaryFilterPhase sampleDict IGNORE_WORDS_BELOW_COUNT).entries.map
        (fun e => e.id)).Perm
      (List.range (dictionaryFilterPhase sampleDict IGNORE_WORDS_BELOW_COUNT).entries.length) :=
  dictionary_filter_compact_spec sampleDict IGNORE_WORDS_BELOW_COUNT (by decide)
